import Mathlib

/-!
Verification of the giscus-proxy request-handling core.

The Go sources are shallowly embedded: byte strings become `List Char`
(all patterns involved are valid UTF-8, which is self-synchronizing, so
rune-level substring search agrees with Go's byte-level search), HTTP
headers become association lists with `Get`/`Set` semantics of
`net/http.Header`, and the handlers become pure functions from a request
plus an upstream outcome to the response they produce.  Fallible
operations return `Option`/`Except`.
-/

set_option autoImplicit false

namespace GiscusProxy

/-- Byte strings of the Go code, modelled at rune granularity. -/
abbrev Bytes := List Char

/-- Coerce a Lean string literal to the byte-string model. -/
def str (s : String) : Bytes := s.data

/-- ASCII whitespace, the fragment of Go `unicode.IsSpace` relevant to
header values (`strings.TrimSpace` trims Unicode space; header values in
this system are ASCII). -/
def isSpaceChar (c : Char) : Bool :=
  c = ' ' || c = '\t' || c = '\n' || c = '\r'

/-- Go `strings.TrimSpace` restricted to ASCII whitespace. -/
def trimSpace (s : Bytes) : Bytes :=
  ((s.dropWhile isSpaceChar).reverse.dropWhile isSpaceChar).reverse

/-- Lower-case one ASCII character. -/
def lowerChar (c : Char) : Char :=
  if 'A' ≤ c ∧ c ≤ 'Z' then Char.ofNat (c.toNat + 32) else c

/-- Go `strings.ToLower` restricted to ASCII (header values here are ASCII). -/
def toLower (s : Bytes) : Bytes := s.map lowerChar

/-- Go `strings.Split(s, ",")`: comma-separated pieces, empties kept. -/
def splitComma : Bytes → List Bytes
  | [] => [[]]
  | c :: rest =>
    if c = ',' then [] :: splitComma rest
    else
      match splitComma rest with
      | [] => [[c]]
      | p :: ps => (c :: p) :: ps

/-- Value of a digit string, `none` if empty or not all digits. -/
def digitsVal : Bytes → Option Nat
  | [] => none
  | [c] => if c.isDigit then some (c.toNat - '0'.toNat) else none
  | c :: rest =>
    if c.isDigit then
      (digitsVal rest).map (fun n => (c.toNat - '0'.toNat) * 10 ^ rest.length + n)
    else none

/-- Largest value of Go's `int` (int64 on 64-bit platforms). -/
def int64Max : Int := 2 ^ 63 - 1

/-- Smallest value of Go's `int` (int64 on 64-bit platforms). -/
def int64Min : Int := -(2 ^ 63)

/-- Two's-complement wrap into signed 64-bit range, as Go's int64
arithmetic produces on overflow. -/
def wrap64 (x : Int) : Int := (x + 2 ^ 63) % 2 ^ 64 - 2 ^ 63

/-- Go `strconv.Atoi`: optional sign followed by at least one digit; a
value outside the int64 range is a range error (`err != nil`), which the
callers treat as a failed parse. -/
def goAtoi (s : Bytes) : Option Int :=
  match s with
  | '+' :: rest =>
    (digitsVal rest).bind (fun n =>
      if (n : Int) ≤ int64Max then some (Int.ofNat n) else none)
  | '-' :: rest =>
    (digitsVal rest).bind (fun n =>
      if int64Min ≤ -(n : Int) then some (-(Int.ofNat n)) else none)
  | _ =>
    (digitsVal s).bind (fun n =>
      if (n : Int) ≤ int64Max then some (Int.ofNat n) else none)

/-- HTTP headers: association list, keys assumed in canonical form. -/
abbrev Headers := List (String × String)

/-- Go `http.Header.Get`: first value for the key, or the empty string. -/
def hGet (h : Headers) (k : String) : String :=
  ((h.find? (fun p => p.1 == k)).map Prod.snd).getD ""

/-- Go `http.Header.Set`: replace every binding of the key by one value. -/
def hSet (h : Headers) (k v : String) : Headers :=
  (h.filter (fun p => p.1 != k)) ++ [(k, v)]

/-- `copyIf` from helpers.go: copy each named header whose source value is
nonempty from src to dst. -/
def copyIf (dst src : Headers) (keys : List String) : Headers :=
  keys.foldl (fun d k => let v := hGet src k; if v = "" then d else hSet d k v) dst

/-- `writeCORS` from helpers.go: set the four CORS response headers. -/
def writeCORS (h : Headers) : Headers :=
  hSet (hSet (hSet (hSet h
    "Access-Control-Allow-Origin" "*")
    "Vary" "Origin")
    "Access-Control-Allow-Methods" "GET,HEAD,OPTIONS")
    "Access-Control-Allow-Headers" "Content-Type,Authorization,Accept"

/-- The scanning loop of `parseMaxAge`: first comma-part that, trimmed,
has (case-insensitive) prefix "max-age=" and whose trimmed remainder
parses (within int64) as a positive integer; parse failures, range
errors and non-positive values keep scanning.  The returned TTL is the
Go value `time.Duration(secs) * time.Second`: a nanosecond count whose
int64 multiplication wraps for secs ≥ 9223372037, so the result can be
negative. -/
def maxAgeScan : List Bytes → Option Int
  | [] => none
  | p :: rest =>
    let pt := trimSpace p
    if (str "max-age=").isPrefixOf (toLower pt) then
      match goAtoi (trimSpace (pt.drop 8)) with
      | some secs =>
        if 0 < secs then some (wrap64 (secs * 1000000000)) else maxAgeScan rest
      | none => maxAgeScan rest
    else maxAgeScan rest

/-- `parseMaxAge` from the proxy package: TTL as a `time.Duration`
(int64 nanoseconds, wrapped on overflow) extracted from a Cache-Control
header, `none` when absent or never positive. -/
def parseMaxAge (h : Headers) : Option Int :=
  let cc := hGet h "Cache-Control"
  if cc = "" then none
  else maxAgeScan (splitComma cc.data)

/-- A passthrough request: the fields of `*http.Request` the handler reads. -/
structure PRequest where
  method : String
  path : String
  rawQuery : String
  acceptEncoding : String
deriving DecidableEq

/-- Go `r.URL.RequestURI()`: path plus "?"+rawQuery when the query is nonempty. -/
def requestURI (r : PRequest) : String :=
  r.path ++ (if r.rawQuery = "" then "" else "?" ++ r.rawQuery)

/-- `cacheKey` from the proxy package: method, request URI and trimmed
Accept-Encoding. -/
def cacheKey (r : PRequest) : String :=
  r.method ++ " " ++ requestURI r ++ " ae=" ++ String.mk (trimSpace r.acceptEncoding.data)

/-- `cache.Entry`: a cached HTTP response.  `expires` is an absolute
time in nanoseconds since the epoch (an `Int`: adding a wrapped negative
TTL can place it in the past, even before the epoch; `time.Time`
arithmetic itself does not wrap at reachable magnitudes). -/
structure Entry where
  status : Nat
  headers : Headers
  body : Bytes
  expires : Int
deriving DecidableEq

/-- The zero `Entry{}` value returned by `Get` on a miss. -/
def zeroEntry : Entry := { status := 0, headers := [], body := [], expires := 0 }

/-- `cache.MemoryCache`: bounded in-memory store.  The Go map becomes an
association list with unique keys. -/
structure MemoryCache where
  data : List (String × Entry)
  maxEntries : Nat
deriving DecidableEq

/-- `cache.NewMemoryCache`. -/
def NewMemoryCache (maxEntries : Nat) : MemoryCache :=
  { data := [], maxEntries := maxEntries }

/-- Go map lookup `c.data[key]`. -/
def lookupKey (l : List (String × Entry)) (k : String) : Option Entry :=
  ((l.find? (fun p => p.1 == k)).map Prod.snd)

/-- Go map assignment `c.data[key] = entry`: replace if present, else add. -/
def setAssoc (l : List (String × Entry)) (k : String) (e : Entry) : List (String × Entry) :=
  if (l.find? (fun p => p.1 == k)).isSome then
    l.map (fun p => if p.1 == k then (k, e) else p)
  else l ++ [(k, e)]

/-- The `for k := range c.data { delete; break }` eviction: removal of one
arbitrary entry.  Go map iteration order is unspecified, so the choice is
an explicit parameter. -/
def evictOne (l : List (String × Entry)) (choice : Nat) : List (String × Entry) :=
  match l with
  | [] => []
  | _ :: _ => l.eraseIdx (choice % l.length)

/-- `MemoryCache.Get`: present and not expired (`time.Now().After(expires)`
is strict, so an entry is still served at its exact expiry instant).
`now` is the current time in nanoseconds since the epoch, hence
nonnegative. -/
def MemoryCache.Get (c : MemoryCache) (now : Nat) (key : String) : Entry × Bool :=
  match lookupKey c.data key with
  | none => (zeroEntry, false)
  | some e => if e.expires < (now : Int) then (zeroEntry, false) else (e, true)

/-- `MemoryCache.Set`: evict one arbitrary entry when at or beyond
capacity, then insert/overwrite. -/
def MemoryCache.Set (c : MemoryCache) (choice : Nat) (key : String) (e : Entry) : MemoryCache :=
  let d := if c.maxEntries ≤ c.data.length then evictOne c.data choice else c.data
  { data := setAssoc d key e, maxEntries := c.maxEntries }

/-- The loop of Go `strings.Replace(s, old, new, -1)` for nonempty `old`:
replace leftmost non-overlapping occurrences, the search resuming past
each replaced occurrence of the original string.  The fuel argument (one
unit per consumed character, `s.length` suffices) keeps the recursion
structural. -/
def replTake (old new : Bytes) : Nat → Bytes → Bytes
  | 0, s => s
  | _ + 1, [] => []
  | fuel + 1, c :: rest =>
    if old.isPrefixOf (c :: rest) then
      new ++ replTake old new fuel (rest.drop (old.length - 1))
    else c :: replTake old new fuel rest

/-- Go `strings.ReplaceAll`.  For empty `old` Go inserts `new` before
every rune and after the last one. -/
def goReplaceAll (s old new : Bytes) : Bytes :=
  if old = [] then new ++ (s.map (fun c => c :: new)).flatten
  else replTake old new s.length s

/-- Modelled from the spec: split a string at the leftmost non-overlapping
occurrences of a nonempty separator, so that "replaces every
exact-substring occurrence" can be stated as joining the pieces with the
replacement.  Same fuel discipline as `replTake`. -/
def splitTokens (old : Bytes) : Nat → Bytes → List Bytes
  | 0, s => [s]
  | _ + 1, [] => [[]]
  | fuel + 1, c :: rest =>
    if old.isPrefixOf (c :: rest) then
      [] :: splitTokens old fuel (rest.drop (old.length - 1))
    else
      match splitTokens old fuel rest with
      | [] => [[c]]
      | p :: ps => (c :: p) :: ps

/-- Modelled from the spec: the pieces of `s` between the leftmost
non-overlapping occurrences of `old`. -/
def splitOcc (old s : Bytes) : List Bytes := splitTokens old s.length s

/-- Go `strings.Contains`. -/
def containsSub (pat : Bytes) : Bytes → Bool
  | [] => pat.isEmpty
  | c :: rest => pat.isPrefixOf (c :: rest) || containsSub pat rest

/-- The Go `regexp` package, abstracted: whether a pattern compiles, and
what `ReplaceAllString` produces.  The handlers treat both as a black box. -/
structure RegexEngine where
  compiles : String → Bool
  replaceAll : String → String → Bytes → Bytes

/-- `replacer` from helpers.go.  The compiled `fromRE` is represented by
its pattern string; the abstract engine interprets it at application
time. -/
structure Replacer where
  useRegex : Bool
  fromS : String
  toS : String
deriving DecidableEq

/-- Simplified Go `%q` formatting (escaping of special characters elided;
only presence of the message matters here). -/
def goQuote (s : String) : String := "\"" ++ s ++ "\""

/-- `strings.SplitN(raw, "=>", 2)`: text before and after the first
"=>", or `none` when the separator is absent. -/
def findArrow : Bytes → Option (Bytes × Bytes)
  | [] => none
  | c :: rest =>
    if (str "=>").isPrefixOf (c :: rest) then some ([], rest.drop 1)
    else
      match findArrow rest with
      | none => none
      | some (l, r) => some (c :: l, r)

/-- The body of the `parseReplacers` loop for one raw `rep` value. -/
def parseOneRep (eng : RegexEngine) (raw : String) : Except String Replacer :=
  match findArrow raw.data with
  | none => Except.error ("bad rep value " ++ goQuote raw ++ " (use LEFT=>RIGHT)")
  | some (l, r) =>
    if (str "re:").isPrefixOf l then
      let pat := String.mk (l.drop 3)
      if eng.compiles pat then Except.ok { useRegex := true, fromS := pat, toS := String.mk r }
      else Except.error ("regex compile failed for " ++ goQuote pat ++ ": error")
    else Except.ok { useRegex := false, fromS := String.mk l, toS := String.mk r }

/-- `parseReplacers` from helpers.go, over the list `q["rep"]`: first
failure aborts the whole parse. -/
def parseReplacers (eng : RegexEngine) : List String → Except String (List Replacer)
  | [] => Except.ok []
  | v :: rest =>
    match parseOneRep eng v with
    | Except.error e => Except.error e
    | Except.ok r => (parseReplacers eng rest).map (fun rs => r :: rs)

/-- One iteration of the `applyReplacements` loop. -/
def applyOne (eng : RegexEngine) (b : Bytes) (r : Replacer) : Bytes :=
  if r.useRegex then eng.replaceAll r.fromS r.toS b
  else goReplaceAll b r.fromS.data r.toS.data

/-- `applyReplacements` from helpers.go: rules applied in order, each to
the previous result. -/
def applyReplacements (eng : RegexEngine) (b : Bytes) (reps : List Replacer) : Bytes :=
  if reps = [] then b else reps.foldl (applyOne eng) b

/-- The escaped-unicode encoding of the attribution fragment. -/
def footerA : Bytes := str "– powered by \\u003ca\\u003egiscus\\u003c/a\\u003e"

/-- The en-dash encoding of the attribution fragment. -/
def footerB : Bytes := str "– powered by <a>giscus</a>"

/-- The hyphen encoding of the attribution fragment. -/
def footerC : Bytes := str "- powered by <a>giscus</a>"

/-- `widgetFooterSwap` from helpers.go: remove the three literal
encodings of the attribution fragment, in order. -/
def widgetFooterSwap (b : Bytes) : Bytes :=
  goReplaceAll (goReplaceAll (goReplaceAll b footerA []) footerB []) footerC []

/-- What the handlers observe of a successful upstream `*http.Response`:
status, headers, and the outcomes of reading the body.  `rawBytes` are
the bytes obtainable from the raw body before `rawErr` (if any) strikes;
the `gunzip` fields describe reading through a gzip reader, available
when `gzipValid` (i.e. `gzip.NewReader` succeeds). -/
structure UpResponse where
  status : Nat
  headers : Headers
  rawBytes : Bytes
  rawErr : Option String
  gzipValid : Bool
  gunzipBytes : Bytes
  gunzipErr : Option String
deriving DecidableEq

/-- Outcome of `p.client.Do`: transport error or a response. -/
inductive UpstreamResult where
  | transportError (msg : String)
  | ok (resp : UpResponse)
deriving DecidableEq

/-- The normalized Content-Encoding, as computed in both handlers:
`strings.ToLower(strings.TrimSpace(h.Get("Content-Encoding")))`. -/
def contentEncodingOf (h : Headers) : String :=
  String.mk (toLower (trimSpace (hGet h "Content-Encoding").data))

/-- `decompressIfNeeded` from helpers.go, combined with the subsequent
read: ok yields the readable bytes and the read error (if any); error
covers an unsupported encoding and a failing `gzip.NewReader`. -/
def decompressIfNeeded (resp : UpResponse) : Except String (Bytes × Option String) :=
  let enc := contentEncodingOf resp.headers
  if enc = "" ∨ enc = "identity" then Except.ok (resp.rawBytes, resp.rawErr)
  else if enc = "gzip" then
    if resp.gzipValid then Except.ok (resp.gunzipBytes, resp.gunzipErr)
    else Except.error "gzip header invalid"
  else Except.error ("unsupported content-encoding: " ++ enc)

/-- A widget request: the fields `handleWidget` reads (`q["rep"]` is the
list of rep query values; other query values only shape the upstream URL). -/
structure WRequest where
  method : String
  repValues : List String
deriving DecidableEq

/-- A handler outcome: status, response headers, the body bytes the
handler wrote, and how many upstream calls it made. -/
structure HResult where
  status : Nat
  headers : Headers
  body : Bytes
  upstreamCalls : Nat
deriving DecidableEq

/-- Go `http.Error`: plain-text headers plus the message and a newline.
(The Go HTTP server suppresses the body on the wire for HEAD requests;
the bytes the handler writes are modelled as-is.) -/
def httpErrorResult (h : Headers) (msg : String) (code : Nat) (calls : Nat) : HResult :=
  { status := code
    headers := hSet (hSet h "Content-Type" "text/plain; charset=utf-8")
      "X-Content-Type-Options" "nosniff"
    body := str (msg ++ "\n")
    upstreamCalls := calls }

/-- `handleWidget` from widget.go.  The upstream outcome is an explicit
argument; `upstreamCalls` counts invocations of `p.client.Do`. -/
def handleWidget (eng : RegexEngine) (up : UpstreamResult) (r : WRequest) : HResult :=
  if r.method = "OPTIONS" then
    { status := 204, headers := writeCORS [], body := [], upstreamCalls := 0 }
  else if r.method ≠ "GET" ∧ r.method ≠ "HEAD" then
    httpErrorResult [] "method not allowed" 405 0
  else
    match parseReplacers eng r.repValues with
    | Except.error msg => httpErrorResult [] msg 400 0
    | Except.ok reps =>
      match up with
      | UpstreamResult.transportError e =>
        httpErrorResult [] ("upstream error: " ++ e) 502 1
      | UpstreamResult.ok resp =>
        let h := copyIf (writeCORS []) resp.headers ["Content-Type"]
        match decompressIfNeeded resp with
        | Except.error _ =>
          { status := resp.status, headers := h, body := resp.rawBytes, upstreamCalls := 1 }
        | Except.ok (bytes, rerr) =>
          match rerr with
          | some e =>
            { status := resp.status, headers := h
              body := str ("<!-- read body failed: " ++ e ++ " -->"), upstreamCalls := 1 }
          | none =>
            let bin := widgetFooterSwap (applyReplacements eng bytes reps)
            { status := resp.status, headers := h
              body := if r.method = "HEAD" then [] else bin, upstreamCalls := 1 }

/-- The fixed header allow-list: main.go supplies none, so `proxy.New`
installs these defaults. -/
def cacheHeadersDefault : List String :=
  ["Content-Type", "Content-Encoding", "Cache-Control", "ETag", "Last-Modified", "Vary"]

/-- A passthrough outcome.  Besides the written response it carries the
cache state after the request, the logged cache-state string, and (as a
record of the `cache.Set` call) the stored key/entry if any. -/
structure PResult where
  status : Nat
  headers : Headers
  body : Bytes
  upstreamCalls : Nat
  cacheState : String
  cacheAfter : MemoryCache
  stored : Option (String × Entry)
deriving DecidableEq

/-- `handlePassthrough` from passthrough.go, for the configuration built
by main.go (a non-nil `MemoryCache`, the default header allow-list).
`now` is the current time in nanoseconds since the epoch (used by the
expiry test and by `time.Now().Add(ttl)`, which are two `time.Now()`
calls of the same request, modelled as one instant), `evictChoice`
resolves the arbitrary map-eviction
choice, and `up` is the outcome `p.client.Do` would produce. -/
def handlePassthrough (cache : MemoryCache) (now evictChoice : Nat)
    (up : UpstreamResult) (r : PRequest) : PResult :=
  if r.method = "OPTIONS" then
    { status := 204, headers := writeCORS [], body := [], upstreamCalls := 0
      cacheState := "BYPASS", cacheAfter := cache, stored := none }
  else if r.method ≠ "GET" ∧ r.method ≠ "HEAD" then
    let e := httpErrorResult [] "method not allowed" 405 0
    { status := e.status, headers := e.headers, body := e.body, upstreamCalls := 0
      cacheState := "BYPASS", cacheAfter := cache, stored := none }
  else
    match cache.Get now (cacheKey r) with
    | (ent, true) =>
      { status := ent.status
        headers := copyIf [] ent.headers cacheHeadersDefault
        body := if r.method = "GET" then ent.body else []
        upstreamCalls := 0, cacheState := "HIT", cacheAfter := cache, stored := none }
    | (_, false) =>
      match up with
      | UpstreamResult.transportError e =>
        let h := httpErrorResult [] ("upstream error: " ++ e) 502 1
        { status := h.status, headers := h.headers, body := h.body, upstreamCalls := 1
          cacheState := "BYPASS", cacheAfter := cache, stored := none }
      | UpstreamResult.ok resp =>
        let h0 := writeCORS []
        let enc := contentEncodingOf resp.headers
        if r.method = "GET" ∧ (enc = "" ∨ enc = "identity") ∧ resp.status = 200 then
          match resp.rawErr with
          | none =>
            let h1 := copyIf h0 resp.headers cacheHeadersDefault
            match parseMaxAge resp.headers with
            | some ttl =>
              let ent : Entry :=
                { status := resp.status
                  headers := copyIf [] resp.headers cacheHeadersDefault
                  body := resp.rawBytes
                  expires := (now : Int) + ttl }
              { status := resp.status, headers := h1, body := resp.rawBytes
                upstreamCalls := 1, cacheState := "MISS:cached"
                cacheAfter := cache.Set evictChoice (cacheKey r) ent
                stored := some (cacheKey r, ent) }
            | none =>
              -- the code falls through after already writing the body once:
              -- copyIf and WriteHeader run again and the body is written twice
              { status := resp.status
                headers := copyIf h1 resp.headers cacheHeadersDefault
                body := resp.rawBytes ++ resp.rawBytes
                upstreamCalls := 1, cacheState := "MISS", cacheAfter := cache, stored := none }
          | some _ =>
            { status := resp.status
              headers := copyIf h0 resp.headers cacheHeadersDefault
              body := []
              upstreamCalls := 1, cacheState := "MISS", cacheAfter := cache, stored := none }
        else
          { status := resp.status
            headers := copyIf h0 resp.headers cacheHeadersDefault
            body := if r.method ≠ "HEAD" then resp.rawBytes else []
            upstreamCalls := 1, cacheState := "BYPASS", cacheAfter := cache, stored := none }

/-- One passthrough invocation as seen by the shared cache. -/
structure PStep where
  req : PRequest
  up : UpstreamResult
  now : Nat
  evictChoice : Nat

/-- The cache contents after a sequence of passthrough requests. -/
def runPassthrough (cache : MemoryCache) : List PStep → MemoryCache
  | [] => cache
  | s :: rest =>
    runPassthrough (handlePassthrough cache s.now s.evictChoice s.up s.req).cacheAfter rest

/-- A regex engine with no compilable patterns (concrete instances below
never use regex rules). -/
def trivialEngine : RegexEngine :=
  { compiles := fun _ => false, replaceAll := fun _ _ b => b }

/-- A plain cacheable upstream response. -/
def respOkPlain : UpResponse :=
  { status := 200, headers := [("Cache-Control", "max-age=60"), ("Content-Type", "text/html")]
    rawBytes := str "hello", rawErr := none
    gzipValid := false, gunzipBytes := [], gunzipErr := none }

/-- An upstream response whose body read fails. -/
def respReadFail : UpResponse :=
  { status := 200, headers := [("Cache-Control", "max-age=60"), ("Content-Type", "text/html")]
    rawBytes := [], rawErr := some "unexpected EOF"
    gzipValid := false, gunzipBytes := [], gunzipErr := none }

/-- A concrete passthrough GET request. -/
def sampleGet : PRequest :=
  { method := "GET", path := "/a.js", rawQuery := "", acceptEncoding := "" }

/-- One cache operation, as issued by concurrent request handlers
(serialized here: the RWMutex makes each operation atomic). -/
inductive CacheOp where
  | get (now : Nat) (key : String)
  | set (choice : Nat) (key : String) (e : Entry)

/-- Run a sequence of cache operations. -/
def runOps (c : MemoryCache) : List CacheOp → MemoryCache
  | [] => c
  | CacheOp.get _ _ :: rest => runOps c rest
  | CacheOp.set ch k e :: rest => runOps (c.Set ch k e) rest

/-- The four CORS headers set by `writeCORS`, with their exact values. -/
def corsOk (h : Headers) : Prop :=
  hGet h "Access-Control-Allow-Origin" = "*"
  ∧ hGet h "Vary" = "Origin"
  ∧ hGet h "Access-Control-Allow-Methods" = "GET,HEAD,OPTIONS"
  ∧ hGet h "Access-Control-Allow-Headers" = "Content-Type,Authorization,Accept"

/-- The three Access-Control headers, without the Vary header. -/
def corsNoVary (h : Headers) : Prop :=
  hGet h "Access-Control-Allow-Origin" = "*"
  ∧ hGet h "Access-Control-Allow-Methods" = "GET,HEAD,OPTIONS"
  ∧ hGet h "Access-Control-Allow-Headers" = "Content-Type,Authorization,Accept"

/-- A rep query value the claim calls malformed: no "=>" separator, or a
"re:" left side whose pattern does not compile. -/
def badRepValue (eng : RegexEngine) (raw : String) : Prop :=
  findArrow raw.data = none
  ∨ ∃ l r, findArrow raw.data = some (l, r) ∧ (str "re:").isPrefixOf l
      ∧ eng.compiles (String.mk (l.drop 3)) = false

/-- A body on which the footer removal splices a fresh occurrence of the
hyphen encoding: removing the embedded occurrence joins the surrounding
halves into `footerC` again. -/
def spliceInput : Bytes := str "-- powered by <a>giscus</a> powered by <a>giscus</a>"

/-- A concrete passthrough HEAD request for the same resource as `sampleGet`. -/
def sampleHead : PRequest :=
  { method := "HEAD", path := "/a.js", rawQuery := "", acceptEncoding := "" }

/-- Every key in the cache starts with "GET " (the store-side invariant
behind the unreachability of HEAD cache hits). -/
def keysAllGET (c : MemoryCache) : Prop :=
  ∀ p ∈ c.data, (str "GET ").isPrefixOf p.1.data

/- ------------------------------------------------------------------ -/
/- Helper lemmas about the header model.                               -/
/- ------------------------------------------------------------------ -/

theorem hGet_hSet_self (h : Headers) (k v : String) : hGet (hSet h k v) k = v := by
  unfold hGet hSet
  induction h with
  | nil => simp
  | cons a t ih =>
    by_cases ha : a.1 = k
    · rwa [List.filter_cons_of_neg (by simp [ha])]
    · rw [List.filter_cons_of_pos (by simp [ha]), List.cons_append,
        List.find?_cons_of_neg _ (by simp [ha])]
      exact ih

theorem hGet_hSet_ne (h : Headers) (k k' v : String) (hne : k' ≠ k) :
    hGet (hSet h k v) k' = hGet h k' := by
  have hkk : ¬ k = k' := fun hh => hne hh.symm
  unfold hGet hSet
  induction h with
  | nil => simp [hkk]
  | cons a t ih =>
    by_cases ha : a.1 = k
    · have hak : ¬ a.1 = k' := by rw [ha]; exact hkk
      rw [List.filter_cons_of_neg (by simp [ha]),
        show List.find? (fun p => p.1 == k') (a :: t) = List.find? (fun p => p.1 == k') t from
          List.find?_cons_of_neg t (by simp [hak])]
      exact ih
    · by_cases ha' : a.1 = k'
      · rw [List.filter_cons_of_pos (by simp [ha]), List.cons_append,
          List.find?_cons_of_pos _ (by simp [ha']),
          List.find?_cons_of_pos t (show (fun p => p.1 == k') a = true by simp [ha'])]
      · rw [List.filter_cons_of_pos (by simp [ha]), List.cons_append,
          List.find?_cons_of_neg _ (by simp [ha']),
          show List.find? (fun p => p.1 == k') (a :: t) = List.find? (fun p => p.1 == k') t from
            List.find?_cons_of_neg t (by simp [ha'])]
        exact ih

theorem hGet_copyIf_not_mem (src : Headers) (keys : List String) (k : String)
    (hk : k ∉ keys) : ∀ dst : Headers, hGet (copyIf dst src keys) k = hGet dst k := by
  induction keys with
  | nil => intro dst; rfl
  | cons k1 ks ih =>
    intro dst
    have hk1 : k ≠ k1 := fun hh => hk (hh ▸ List.mem_cons_self k1 ks)
    have hks : k ∉ ks := fun hh => hk (List.mem_cons_of_mem k1 hh)
    show hGet (copyIf (if hGet src k1 = "" then dst else hSet dst k1 (hGet src k1)) src ks) k
      = hGet dst k
    rw [ih hks]
    by_cases hv : hGet src k1 = ""
    · rw [if_pos hv]
    · rw [if_neg hv, hGet_hSet_ne dst k1 k _ hk1]

theorem hGet_copyIf_src_empty (src : Headers) (keys : List String) (k : String)
    (hv : hGet src k = "") : ∀ dst : Headers, hGet (copyIf dst src keys) k = hGet dst k := by
  induction keys with
  | nil => intro dst; rfl
  | cons k1 ks ih =>
    intro dst
    show hGet (copyIf (if hGet src k1 = "" then dst else hSet dst k1 (hGet src k1)) src ks) k
      = hGet dst k
    rw [ih]
    by_cases hv1 : hGet src k1 = ""
    · rw [if_pos hv1]
    · rw [if_neg hv1]
      by_cases hkk : k = k1
      · exact absurd (hkk ▸ hv) hv1
      · rw [hGet_hSet_ne dst k1 k _ hkk]

theorem corsOk_writeCORS_nil : corsOk (writeCORS []) := by
  unfold corsOk
  exact ⟨rfl, rfl, rfl, rfl⟩

theorem corsOk_copyIf (d src : Headers) (keys : List String) (hc : corsOk d)
    (h1 : "Access-Control-Allow-Origin" ∉ keys) (h2 : "Vary" ∉ keys)
    (h3 : "Access-Control-Allow-Methods" ∉ keys) (h4 : "Access-Control-Allow-Headers" ∉ keys) :
    corsOk (copyIf d src keys) := by
  obtain ⟨c1, c2, c3, c4⟩ := hc
  exact ⟨by rw [hGet_copyIf_not_mem src keys _ h1 d]; exact c1,
    by rw [hGet_copyIf_not_mem src keys _ h2 d]; exact c2,
    by rw [hGet_copyIf_not_mem src keys _ h3 d]; exact c3,
    by rw [hGet_copyIf_not_mem src keys _ h4 d]; exact c4⟩

theorem corsNoVary_copyIf (d src : Headers) (keys : List String) (hc : corsNoVary d)
    (h1 : "Access-Control-Allow-Origin" ∉ keys)
    (h3 : "Access-Control-Allow-Methods" ∉ keys) (h4 : "Access-Control-Allow-Headers" ∉ keys) :
    corsNoVary (copyIf d src keys) := by
  obtain ⟨c1, c3, c4⟩ := hc
  exact ⟨by rw [hGet_copyIf_not_mem src keys _ h1 d]; exact c1,
    by rw [hGet_copyIf_not_mem src keys _ h3 d]; exact c3,
    by rw [hGet_copyIf_not_mem src keys _ h4 d]; exact c4⟩

/- ------------------------------------------------------------------ -/
/- Helper lemmas about the memory cache.                               -/
/- ------------------------------------------------------------------ -/

theorem setAssoc_length_le (l : List (String × Entry)) (k : String) (e : Entry) :
    (setAssoc l k e).length ≤ l.length + 1 := by
  unfold setAssoc
  by_cases hf : (l.find? (fun p => p.1 == k)).isSome
  · rw [if_pos hf, List.length_map]
    exact Nat.le_succ _
  · rw [if_neg hf, List.length_append]
    simp

theorem evictOne_length (l : List (String × Entry)) (ch : Nat) (hne : l ≠ []) :
    (evictOne l ch).length = l.length - 1 := by
  unfold evictOne
  match l, hne with
  | a :: t, _ =>
    exact List.length_eraseIdx_of_lt (Nat.mod_lt _ (by simp))

theorem Set_length_le (c : MemoryCache) (ch : Nat) (k : String) (e : Entry)
    (h1 : 1 ≤ c.maxEntries) (h2 : c.data.length ≤ c.maxEntries) :
    (c.Set ch k e).data.length ≤ c.maxEntries := by
  unfold MemoryCache.Set
  by_cases hcap : c.maxEntries ≤ c.data.length
  · have hne : c.data ≠ [] := by
      intro hnil
      rw [hnil] at hcap
      simp at hcap
      omega
    simp only [if_pos hcap]
    calc (setAssoc (evictOne c.data ch) k e).length
        ≤ (evictOne c.data ch).length + 1 := setAssoc_length_le _ _ _
      _ = c.data.length - 1 + 1 := by rw [evictOne_length c.data ch hne]
      _ ≤ c.maxEntries := by omega
  · simp only [if_neg hcap]
    calc (setAssoc c.data k e).length ≤ c.data.length + 1 := setAssoc_length_le _ _ _
      _ ≤ c.maxEntries := by omega

theorem Set_maxEntries (c : MemoryCache) (ch : Nat) (k : String) (e : Entry) :
    (c.Set ch k e).maxEntries = c.maxEntries := rfl

theorem runOps_length_le (ops : List CacheOp) :
    ∀ c : MemoryCache, 1 ≤ c.maxEntries → c.data.length ≤ c.maxEntries →
      (runOps c ops).data.length ≤ c.maxEntries ∧ (runOps c ops).maxEntries = c.maxEntries := by
  induction ops with
  | nil => intro c _ h2; exact ⟨h2, rfl⟩
  | cons op rest ih =>
    intro c h1 h2
    cases op with
    | get now key => exact ih c h1 h2
    | set ch k e =>
      have hs := Set_length_le c ch k e h1 h2
      have := ih (c.Set ch k e) (by rw [Set_maxEntries]; exact h1) hs
      rw [Set_maxEntries] at this
      exact this

/- ------------------------------------------------------------------ -/
/- Claims about the cache (C7, C8).                                    -/
/- ------------------------------------------------------------------ -/

/-- Claim C7: starting from `NewMemoryCache` with a positive configured
bound (main.go configures 512), no sequence of Get/Set operations ever
makes the number of stored entries exceed the bound; at capacity, `Set`
evicts one arbitrary existing entry before inserting. -/
theorem claim_C7 (maxE : Nat) (ops : List CacheOp) (hpos : 1 ≤ maxE) :
    (runOps (NewMemoryCache maxE) ops).data.length ≤ maxE :=
  (runOps_length_le ops (NewMemoryCache maxE) hpos (by simp [NewMemoryCache])).1

/-- Witness for C7: the configured bound 512 with a concrete operation
sequence. -/
theorem claim_C7_witness :
    1 ≤ 512 ∧
    (runOps (NewMemoryCache 512)
      [CacheOp.set 0 "a" zeroEntry, CacheOp.set 3 "b" zeroEntry,
        CacheOp.get 1 "a", CacheOp.set 7 "a" zeroEntry]).data.length ≤ 512 :=
  ⟨by decide, claim_C7 512 _ (by decide)⟩

/-- Claim C8: `Get` returns `(entry, true)` exactly when the key is bound
and the entry's expiry has not passed (`time.Now().After` is strict, so
the entry is still served at the exact expiry instant); an expired entry
is reported absent. -/
theorem claim_C8 (c : MemoryCache) (now : Nat) (key : String) :
    ((c.Get now key).2 = true ↔ ∃ e, lookupKey c.data key = some e ∧ now ≤ e.expires)
    ∧ (∀ e, lookupKey c.data key = some e → now ≤ e.expires → c.Get now key = (e, true)) := by
  constructor
  · constructor
    · intro h
      cases hl : lookupKey c.data key with
      | none => simp only [MemoryCache.Get, hl] at h; exact absurd h (by simp)
      | some e =>
        simp only [MemoryCache.Get, hl] at h
        by_cases he : e.expires < now
        · rw [if_pos he] at h; simp at h
        · exact ⟨e, rfl, le_of_not_lt he⟩
    · rintro ⟨e, hl, hle⟩
      simp only [MemoryCache.Get, hl, if_neg (not_lt.mpr hle)]
  · intro e hl hle
    simp only [MemoryCache.Get, hl, if_neg (not_lt.mpr hle)]

/-- Witness for C8: a concrete entry served at its expiry instant. -/
theorem claim_C8_witness :
    lookupKey (MemoryCache.mk [("k", Entry.mk 200 [] [] 10)] 4).data "k"
        = some (Entry.mk 200 [] [] 10)
    ∧ 10 ≤ (Entry.mk 200 [] [] 10).expires
    ∧ (MemoryCache.mk [("k", Entry.mk 200 [] [] 10)] 4).Get 10 "k"
        = (Entry.mk 200 [] [] 10, true) :=
  ⟨by decide, by decide,
    (claim_C8 (MemoryCache.mk [("k", Entry.mk 200 [] [] 10)] 4) 10 "k").2
      (Entry.mk 200 [] [] 10) (by decide) (by decide)⟩

/- ------------------------------------------------------------------ -/
/- Helper lemmas about text replacement.                               -/
/- ------------------------------------------------------------------ -/

theorem intercalate_singleton (sep x : Bytes) : List.intercalate sep [x] = x := by
  simp [List.intercalate, List.intersperse]

theorem intercalate_cons_ne_nil (sep x : Bytes) (xs : List Bytes) (h : xs ≠ []) :
    List.intercalate sep (x :: xs) = x ++ sep ++ List.intercalate sep xs := by
  cases xs with
  | nil => exact absurd rfl h
  | cons b tl => simp [List.intercalate, List.intersperse, List.append_assoc]

theorem splitTokens_ne_nil (old : Bytes) : ∀ fuel s, splitTokens old fuel s ≠ [] := by
  intro fuel s
  match fuel, s with
  | 0, s => simp [splitTokens]
  | f + 1, [] => simp [splitTokens]
  | f + 1, c :: rest =>
    simp only [splitTokens]
    split
    · simp
    · split <;> simp

theorem replTake_eq_intercalate (old new : Bytes) :
    ∀ fuel s, replTake old new fuel s = List.intercalate new (splitTokens old fuel s) := by
  intro fuel
  induction fuel with
  | zero => intro s; rw [replTake, splitTokens, intercalate_singleton]
  | succ f ih =>
    intro s
    match s with
    | [] => rw [replTake, splitTokens, intercalate_singleton]
    | c :: rest =>
      rw [replTake, splitTokens]
      by_cases hp : old.isPrefixOf (c :: rest)
      · rw [if_pos hp, if_pos hp, ih,
          intercalate_cons_ne_nil _ _ _ (splitTokens_ne_nil _ _ _)]
        simp
      · rw [if_neg hp, if_neg hp, ih]
        cases hst : splitTokens old f rest with
        | nil => exact absurd hst (splitTokens_ne_nil _ _ _)
        | cons p ps =>
          cases ps with
          | nil => rw [intercalate_singleton, intercalate_singleton]
          | cons q qs =>
            rw [intercalate_cons_ne_nil new p (q :: qs) (by simp),
              intercalate_cons_ne_nil new (c :: p) (q :: qs) (by simp)]
            simp

theorem goReplaceAll_eq_intercalate (old new s : Bytes) (h : old ≠ []) :
    goReplaceAll s old new = List.intercalate new (splitOcc old s) := by
  unfold goReplaceAll splitOcc
  rw [if_neg h]
  exact replTake_eq_intercalate old new s.length s

/- ------------------------------------------------------------------ -/
/- Claims about text replacement (C5, C6).                             -/
/- ------------------------------------------------------------------ -/

/-- Claim C5: replacement rules apply left to right, each rule operating
on the previous rule's output (first conjunct); a literal rule replaces
every leftmost non-overlapping exact-substring occurrence of its left
side, stated as joining the pieces between occurrences with the
replacement (second conjunct); a regex rule is pattern substitution by
the regexp engine (third conjunct). -/
theorem claim_C5 :
    (∀ (eng : RegexEngine) (b : Bytes) (r : Replacer) (reps : List Replacer),
      applyReplacements eng b (r :: reps) = applyReplacements eng (applyOne eng b r) reps)
    ∧ (∀ old new s : Bytes, old ≠ [] →
      goReplaceAll s old new = List.intercalate new (splitOcc old s))
    ∧ (∀ (eng : RegexEngine) (b : Bytes) (p t : String),
      applyOne eng b (Replacer.mk true p t) = eng.replaceAll p t b) := by
  refine ⟨?_, goReplaceAll_eq_intercalate, ?_⟩
  · intro eng b r reps
    cases reps with
    | nil => simp [applyReplacements]
    | cons r2 rs => simp [applyReplacements]
  · intro eng b p t
    simp [applyOne]

/-- Witness for C5: a concrete literal replacement, with the nonempty
pattern hypothesis discharged. -/
theorem claim_C5_witness :
    str "b" ≠ [] ∧
    goReplaceAll (str "abcabc") (str "b") (str "XY")
      = List.intercalate (str "XY") (splitOcc (str "b") (str "abcabc")) :=
  ⟨by decide, claim_C5.2.1 (str "b") (str "XY") (str "abcabc") (by decide)⟩

/-- Counterexample for C6: on this body, removing the embedded hyphen
encoding splices its surrounding halves into a fresh occurrence of the
same encoding, which survives in the output: the output is not free of
the three encodings. -/
theorem claim_C6_cex : containsSub footerC (widgetFooterSwap spliceInput) = true := by decide

/-- Claim C6 (amended): the footer-removal step performs the three fixed
literal removals in sequence (escaped-unicode, en-dash, hyphen); each
pass removes every leftmost non-overlapping occurrence of its own
encoding present in its stage input.  Freedom of the output from all
three encodings is not guaranteed: a removal can splice together a new
occurrence (see the counterexample). -/
theorem claim_C6 (b : Bytes) :
    widgetFooterSwap b =
      List.intercalate [] (splitOcc footerC
        (List.intercalate [] (splitOcc footerB
          (List.intercalate [] (splitOcc footerA b))))) := by
  unfold widgetFooterSwap
  rw [goReplaceAll_eq_intercalate footerA [] b (by decide)]
  rw [goReplaceAll_eq_intercalate footerB [] _ (by decide)]
  rw [goReplaceAll_eq_intercalate footerC [] _ (by decide)]

/- ------------------------------------------------------------------ -/
/- Helper lemmas about rep parsing.                                    -/
/- ------------------------------------------------------------------ -/

theorem badRep_parseOne (eng : RegexEngine) (raw : String) (hb : badRepValue eng raw) :
    ∃ e, parseOneRep eng raw = Except.error e := by
  unfold parseOneRep
  rcases hb with h | ⟨l, r, hfa, hpre, hcomp⟩
  · rw [h]; exact ⟨_, rfl⟩
  · rw [hfa]
    simp only [hpre, hcomp, if_true, Bool.false_eq_true, if_false]
    exact ⟨_, rfl⟩

theorem badRep_parseReplacers (eng : RegexEngine) :
    ∀ vals, (∃ v ∈ vals, badRepValue eng v) →
      ∃ e, parseReplacers eng vals = Except.error e := by
  intro vals
  induction vals with
  | nil => rintro ⟨v, hv, _⟩; simp at hv
  | cons a t ih =>
    rintro ⟨v, hv, hb⟩
    rw [List.mem_cons] at hv
    rcases hv with rfl | hv
    · obtain ⟨e, he⟩ := badRep_parseOne eng v hb
      exact ⟨e, by simp [parseReplacers, he]⟩
    · cases hpa : parseOneRep eng a with
      | error e => exact ⟨e, by simp [parseReplacers, hpa]⟩
      | ok rr =>
        obtain ⟨e, he⟩ := ih ⟨v, hv, hb⟩
        exact ⟨e, by simp [parseReplacers, hpa, he, Except.map]⟩

/- ------------------------------------------------------------------ -/
/- Claim C4.                                                           -/
/- ------------------------------------------------------------------ -/

/-- Claim C4: a GET or HEAD widget request with a malformed rep value
(no "=>" separator, or a "re:" pattern that fails to compile) is
answered 400 and makes no upstream call, so no replacement is ever
partially applied. -/
theorem claim_C4 (eng : RegexEngine) (up : UpstreamResult) (r : WRequest)
    (hm : r.method = "GET" ∨ r.method = "HEAD")
    (hbad : ∃ v ∈ r.repValues, badRepValue eng v) :
    (handleWidget eng up r).status = 400 ∧ (handleWidget eng up r).upstreamCalls = 0 := by
  have hO : ¬ r.method = "OPTIONS" := by rcases hm with h | h <;> rw [h] <;> decide
  have h45 : ¬ (r.method ≠ "GET" ∧ r.method ≠ "HEAD") := by
    rcases hm with h | h <;> rw [h] <;> decide
  obtain ⟨e, he⟩ := badRep_parseReplacers eng r.repValues hbad
  simp only [handleWidget, if_neg hO, if_neg h45, he]
  exact ⟨rfl, rfl⟩

/-- Witness for C4: a concrete GET request with a separator-free rep
value. -/
theorem claim_C4_witness :
    ((WRequest.mk "GET" ["nosep"]).method = "GET"
        ∨ (WRequest.mk "GET" ["nosep"]).method = "HEAD")
    ∧ (∃ v ∈ (WRequest.mk "GET" ["nosep"]).repValues, badRepValue trivialEngine v)
    ∧ (handleWidget trivialEngine (UpstreamResult.ok respOkPlain)
        (WRequest.mk "GET" ["nosep"])).status = 400
    ∧ (handleWidget trivialEngine (UpstreamResult.ok respOkPlain)
        (WRequest.mk "GET" ["nosep"])).upstreamCalls = 0 := by
  have hbad : ∃ v ∈ (WRequest.mk "GET" ["nosep"]).repValues, badRepValue trivialEngine v :=
    ⟨"nosep", by decide, Or.inl (by decide)⟩
  have h := claim_C4 trivialEngine (UpstreamResult.ok respOkPlain)
    (WRequest.mk "GET" ["nosep"]) (Or.inl rfl) hbad
  exact ⟨Or.inl rfl, hbad, h.1, h.2⟩

/- ------------------------------------------------------------------ -/
/- Helper lemmas about the handlers.                                   -/
/- ------------------------------------------------------------------ -/

theorem method_not_options {m : String} (hm : m = "GET" ∨ m = "HEAD") : ¬ m = "OPTIONS" := by
  rcases hm with h | h <;> rw [h] <;> decide

theorem method_not_other {m : String} (hm : m = "GET" ∨ m = "HEAD") :
    ¬ (m ≠ "GET" ∧ m ≠ "HEAD") := by
  rcases hm with h | h <;> rw [h] <;> decide

theorem handleWidget_ok_headers (eng : RegexEngine) (resp : UpResponse) (r : WRequest)
    (reps : List Replacer) (hm : r.method = "GET" ∨ r.method = "HEAD")
    (hp : parseReplacers eng r.repValues = Except.ok reps) :
    (handleWidget eng (UpstreamResult.ok resp) r).headers
      = copyIf (writeCORS []) resp.headers ["Content-Type"] := by
  simp only [handleWidget, if_neg (method_not_options hm), if_neg (method_not_other hm), hp]
  cases hd : decompressIfNeeded resp with
  | error e => simp only [hd]
  | ok pr =>
    obtain ⟨bytes, rerr⟩ := pr
    cases rerr <;> simp only [hd]

theorem corsNoVary_of_corsOk {h : Headers} (hc : corsOk h) : corsNoVary h :=
  ⟨hc.1, hc.2.2.1, hc.2.2.2⟩

theorem corsNoVary_copyIf_default (d src : Headers) (hc : corsNoVary d) :
    corsNoVary (copyIf d src cacheHeadersDefault) :=
  corsNoVary_copyIf d src cacheHeadersDefault hc (by decide) (by decide) (by decide)

theorem vary_copyIf_default (d src : Headers) (hv : hGet src "Vary" = "")
    (h : hGet d "Vary" = "Origin") :
    hGet (copyIf d src cacheHeadersDefault) "Vary" = "Origin" := by
  rw [hGet_copyIf_src_empty src cacheHeadersDefault "Vary" hv d]
  exact h

/- ------------------------------------------------------------------ -/
/- Claim C1.                                                           -/
/- ------------------------------------------------------------------ -/

/-- Counterexample for C1: a POST to the widget handler is answered 405
by `http.Error` without `writeCORS` ever running, so the response lacks
the CORS headers. -/
theorem claim_C1_cex :
    (handleWidget trivialEngine (UpstreamResult.ok respOkPlain)
        (WRequest.mk "POST" [])).status = 405
    ∧ hGet (handleWidget trivialEngine (UpstreamResult.ok respOkPlain)
        (WRequest.mk "POST" [])).headers "Access-Control-Allow-Origin" = "" := by
  constructor <;> rfl

/-- Claim C1 (amended): the four CORS headers are set on OPTIONS
responses of both handlers and on every widget response after a
successful upstream call; on passthrough responses after a successful
upstream call the three Access-Control headers are always set, and
`Vary: Origin` survives exactly when the upstream sent no (or an empty)
Vary header, because the allow-list copy overwrites Vary.  The
405/400/502 error paths and the cache-hit path do not set these headers
(see the counterexample). -/
theorem claim_C1 :
    (∀ (eng : RegexEngine) (up : UpstreamResult) (r : WRequest), r.method = "OPTIONS" →
      corsOk (handleWidget eng up r).headers)
    ∧ (∀ (eng : RegexEngine) (resp : UpResponse) (r : WRequest) (reps : List Replacer),
        (r.method = "GET" ∨ r.method = "HEAD") →
        parseReplacers eng r.repValues = Except.ok reps →
        corsOk (handleWidget eng (UpstreamResult.ok resp) r).headers)
    ∧ (∀ (cache : MemoryCache) (now ch : Nat) (up : UpstreamResult) (r : PRequest),
        r.method = "OPTIONS" →
        corsOk (handlePassthrough cache now ch up r).headers)
    ∧ (∀ (cache : MemoryCache) (now ch : Nat) (resp : UpResponse) (r : PRequest),
        (r.method = "GET" ∨ r.method = "HEAD") →
        (cache.Get now (cacheKey r)).2 = false →
        corsNoVary (handlePassthrough cache now ch (UpstreamResult.ok resp) r).headers
        ∧ (hGet resp.headers "Vary" = "" →
            hGet (handlePassthrough cache now ch (UpstreamResult.ok resp) r).headers "Vary"
              = "Origin")) := by
  refine ⟨?_, ?_, ?_, ?_⟩
  · intro eng up r hm
    simp only [handleWidget, if_pos hm]
    exact corsOk_writeCORS_nil
  · intro eng resp r reps hm hp
    rw [handleWidget_ok_headers eng resp r reps hm hp]
    exact corsOk_copyIf _ _ _ corsOk_writeCORS_nil (by decide) (by decide) (by decide) (by decide)
  · intro cache now ch up r hm
    simp only [handlePassthrough, if_pos hm]
    exact corsOk_writeCORS_nil
  · intro cache now ch resp r hm hf
    cases hg : cache.Get now (cacheKey r) with
    | mk ent fnd =>
      rw [hg] at hf
      simp only at hf
      subst hf
      simp only [handlePassthrough, if_neg (method_not_options hm),
        if_neg (method_not_other hm), hg]
      have base : corsNoVary (writeCORS []) := corsNoVary_of_corsOk corsOk_writeCORS_nil
      have baseV : hGet (writeCORS []) "Vary" = "Origin" := corsOk_writeCORS_nil.2.1
      by_cases hcond : r.method = "GET"
        ∧ (contentEncodingOf resp.headers = "" ∨ contentEncodingOf resp.headers = "identity")
        ∧ resp.status = 200
      · rw [if_pos hcond]
        cases hre : resp.rawErr with
        | none =>
          cases hma : parseMaxAge resp.headers with
          | some ttl =>
            simp only
            exact ⟨corsNoVary_copyIf_default _ _ base,
              fun hv => vary_copyIf_default _ _ hv baseV⟩
          | none =>
            simp only
            exact ⟨corsNoVary_copyIf_default _ _ (corsNoVary_copyIf_default _ _ base),
              fun hv => vary_copyIf_default _ _ hv (vary_copyIf_default _ _ hv baseV)⟩
        | some e =>
          simp only
          exact ⟨corsNoVary_copyIf_default _ _ base,
            fun hv => vary_copyIf_default _ _ hv baseV⟩
      · rw [if_neg hcond]
        exact ⟨corsNoVary_copyIf_default _ _ base,
          fun hv => vary_copyIf_default _ _ hv baseV⟩

/-- Witness for C1 (amended): a plain GET widget request with no rep
values against a plain upstream response. -/
theorem claim_C1_witness :
    ((WRequest.mk "GET" []).method = "GET" ∨ (WRequest.mk "GET" []).method = "HEAD")
    ∧ parseReplacers trivialEngine (WRequest.mk "GET" []).repValues = Except.ok []
    ∧ corsOk (handleWidget trivialEngine (UpstreamResult.ok respOkPlain)
        (WRequest.mk "GET" [])).headers :=
  ⟨Or.inl rfl, rfl,
    claim_C1.2.1 trivialEngine respOkPlain (WRequest.mk "GET" []) [] (Or.inl rfl) rfl⟩

/- ------------------------------------------------------------------ -/
/- Claim C3.                                                           -/
/- ------------------------------------------------------------------ -/

/-- Counterexample for C3: a HEAD widget request with a malformed rep
value is answered through `http.Error`, which writes the error text as
body bytes (the HTTP server suppresses them on the wire, but the handler
does write them, and the handler's own bytes counter records them). -/
theorem claim_C3_cex :
    (WRequest.mk "HEAD" ["nosep"]).method = "HEAD"
    ∧ (handleWidget trivialEngine (UpstreamResult.ok respOkPlain)
        (WRequest.mk "HEAD" ["nosep"])).status = 400
    ∧ (handleWidget trivialEngine (UpstreamResult.ok respOkPlain)
        (WRequest.mk "HEAD" ["nosep"])).body ≠ [] := by
  refine ⟨rfl, rfl, ?_⟩
  decide

/-- Claim C3 (amended): a HEAD request receives no body bytes on the
widget handler's fully successful path, on the passthrough cache-hit
path, and on every passthrough path after a successful upstream call;
the error paths (400/405/502, unsupported-encoding fallback, body-read
failure) do write bytes even for HEAD (see the counterexample). -/
theorem claim_C3 :
    (∀ (eng : RegexEngine) (resp : UpResponse) (r : WRequest) (reps : List Replacer)
        (bytes : Bytes),
      r.method = "HEAD" → parseReplacers eng r.repValues = Except.ok reps →
      decompressIfNeeded resp = Except.ok (bytes, none) →
      (handleWidget eng (UpstreamResult.ok resp) r).body = [])
    ∧ (∀ (cache : MemoryCache) (now ch : Nat) (up : UpstreamResult) (r : PRequest)
        (ent : Entry),
      r.method = "HEAD" → cache.Get now (cacheKey r) = (ent, true) →
      (handlePassthrough cache now ch up r).body = [])
    ∧ (∀ (cache : MemoryCache) (now ch : Nat) (resp : UpResponse) (r : PRequest),
      r.method = "HEAD" → (cache.Get now (cacheKey r)).2 = false →
      (handlePassthrough cache now ch (UpstreamResult.ok resp) r).body = []) := by
  refine ⟨?_, ?_, ?_⟩
  · intro eng resp r reps bytes hm hp hd
    have hm' : r.method = "GET" ∨ r.method = "HEAD" := Or.inr hm
    simp only [handleWidget, if_neg (method_not_options hm'),
      if_neg (method_not_other hm'), hp, hd]
    rw [if_pos hm]
  · intro cache now ch up r ent hm hg
    have hm' : r.method = "GET" ∨ r.method = "HEAD" := Or.inr hm
    simp only [handlePassthrough, if_neg (method_not_options hm'),
      if_neg (method_not_other hm'), hg]
    rw [if_neg (by rw [hm]; decide)]
  · intro cache now ch resp r hm hf
    have hm' : r.method = "GET" ∨ r.method = "HEAD" := Or.inr hm
    cases hg : cache.Get now (cacheKey r) with
    | mk ent fnd =>
      rw [hg] at hf
      simp only at hf
      subst hf
      simp only [handlePassthrough, if_neg (method_not_options hm'),
        if_neg (method_not_other hm'), hg]
      rw [if_neg (by rw [hm]; exact fun hc => absurd hc.1 (by decide))]
      rw [if_neg (by rw [hm]; decide)]

/-- Witness for C3 (amended): a HEAD passthrough miss against a plain
upstream response carries no body bytes. -/
theorem claim_C3_witness :
    sampleHead.method = "HEAD"
    ∧ ((NewMemoryCache 512).Get 0 (cacheKey sampleHead)).2 = false
    ∧ (handlePassthrough (NewMemoryCache 512) 0 0 (UpstreamResult.ok respOkPlain)
        sampleHead).body = [] :=
  ⟨rfl, by decide,
    claim_C3.2.2 (NewMemoryCache 512) 0 0 respOkPlain sampleHead rfl (by decide)⟩

/- ------------------------------------------------------------------ -/
/- Claim C9.                                                           -/
/- ------------------------------------------------------------------ -/

/-- Counterexample for C9: on the passthrough handler, when the buffered
body read fails after a successful 200 uncompressed upstream response,
the handler emits status 200 with an empty body — no diagnostic comment
is written (only the widget handler writes one). -/
theorem claim_C9_cex :
    respReadFail.rawErr = some "unexpected EOF"
    ∧ (handlePassthrough (NewMemoryCache 512) 0 0 (UpstreamResult.ok respReadFail)
        sampleGet).status = 200
    ∧ (handlePassthrough (NewMemoryCache 512) 0 0 (UpstreamResult.ok respReadFail)
        sampleGet).body = []
    ∧ containsSub (str "<!--")
        (handlePassthrough (NewMemoryCache 512) 0 0 (UpstreamResult.ok respReadFail)
          sampleGet).body = false := by
  refine ⟨rfl, ?_, ?_, ?_⟩ <;> decide

/-- Claim C9 (amended): when the upstream call succeeds but the body
read fails, the widget handler emits the original upstream status with
the diagnostic comment as body; the passthrough handler's buffered path
(GET, uncompressed, 200) emits the original status with an empty body
and no diagnostic comment. -/
theorem claim_C9 :
    (∀ (eng : RegexEngine) (resp : UpResponse) (r : WRequest) (reps : List Replacer)
        (bytes : Bytes) (e : String),
      (r.method = "GET" ∨ r.method = "HEAD") →
      parseReplacers eng r.repValues = Except.ok reps →
      decompressIfNeeded resp = Except.ok (bytes, some e) →
      (handleWidget eng (UpstreamResult.ok resp) r).status = resp.status
      ∧ (handleWidget eng (UpstreamResult.ok resp) r).body
          = str ("<!-- read body failed: " ++ e ++ " -->"))
    ∧ (∀ (cache : MemoryCache) (now ch : Nat) (resp : UpResponse) (r : PRequest)
        (e : String),
      r.method = "GET" → (cache.Get now (cacheKey r)).2 = false →
      (contentEncodingOf resp.headers = "" ∨ contentEncodingOf resp.headers = "identity") →
      resp.status = 200 → resp.rawErr = some e →
      (handlePassthrough cache now ch (UpstreamResult.ok resp) r).status = resp.status
      ∧ (handlePassthrough cache now ch (UpstreamResult.ok resp) r).body = []) := by
  constructor
  · intro eng resp r reps bytes e hm hp hd
    simp only [handleWidget, if_neg (method_not_options hm),
      if_neg (method_not_other hm), hp, hd]
    exact ⟨trivial, trivial⟩
  · intro cache now ch resp r e hm hf henc hst hre
    have hm' : r.method = "GET" ∨ r.method = "HEAD" := Or.inl hm
    cases hg : cache.Get now (cacheKey r) with
    | mk ent fnd =>
      rw [hg] at hf
      simp only at hf
      subst hf
      simp only [handlePassthrough, if_neg (method_not_options hm'),
        if_neg (method_not_other hm'), hg]
      rw [if_pos ⟨hm, henc, hst⟩]
      simp only [hre]
      exact ⟨trivial, trivial⟩

/-- Witness for C9 (amended): the widget handler against an upstream
response whose body read fails. -/
theorem claim_C9_witness :
    decompressIfNeeded respReadFail = Except.ok ([], some "unexpected EOF")
    ∧ (handleWidget trivialEngine (UpstreamResult.ok respReadFail)
        (WRequest.mk "GET" [])).status = respReadFail.status
    ∧ (handleWidget trivialEngine (UpstreamResult.ok respReadFail)
        (WRequest.mk "GET" [])).body
        = str ("<!-- read body failed: " ++ "unexpected EOF" ++ " -->") := by
  have h := claim_C9.1 trivialEngine respReadFail (WRequest.mk "GET" []) [] []
    "unexpected EOF" (Or.inl rfl) rfl rfl
  exact ⟨rfl, h.1, h.2⟩

/- ------------------------------------------------------------------ -/
/- Claim C2.                                                           -/
/- ------------------------------------------------------------------ -/

theorem goAtoi_range (s : Bytes) (z : Int) (h : goAtoi s = some z) :
    int64Min ≤ z ∧ z ≤ int64Max := by
  have hmin : int64Min ≤ (0 : Int) := by decide
  have hmax : (0 : Int) ≤ int64Max := by decide
  unfold goAtoi at h
  split at h
  · cases hd : digitsVal _ with
    | none => rw [hd] at h; cases h
    | some n =>
      rw [hd] at h
      have h' : (if (n : Int) ≤ int64Max then some (Int.ofNat n) else none) = some z := h
      by_cases hb : (n : Int) ≤ int64Max
      · rw [if_pos hb] at h'
        cases h'
        exact ⟨le_trans hmin (Int.ofNat_nonneg n), hb⟩
      · rw [if_neg hb] at h'; cases h'
  · cases hd : digitsVal _ with
    | none => rw [hd] at h; cases h
    | some n =>
      rw [hd] at h
      have h' : (if int64Min ≤ -(n : Int) then some (-(Int.ofNat n)) else none) = some z := h
      by_cases hb : int64Min ≤ -(n : Int)
      · rw [if_pos hb] at h'
        cases h'
        exact ⟨hb, le_trans (neg_nonpos.mpr (Int.ofNat_nonneg n)) hmax⟩
      · rw [if_neg hb] at h'; cases h'
  · cases hd : digitsVal _ with
    | none => rw [hd] at h; cases h
    | some n =>
      rw [hd] at h
      have h' : (if (n : Int) ≤ int64Max then some (Int.ofNat n) else none) = some z := h
      by_cases hb : (n : Int) ≤ int64Max
      · rw [if_pos hb] at h'
        cases h'
        exact ⟨le_trans hmin (Int.ofNat_nonneg n), hb⟩
      · rw [if_neg hb] at h'; cases h'

theorem maxAgeScan_shape : ∀ (l : List Bytes) (n : Int), maxAgeScan l = some n →
    ∃ z : Int, 0 < z ∧ z ≤ int64Max ∧ n = wrap64 (z * 1000000000) := by
  intro l
  induction l with
  | nil => intro n h; exact absurd h (by simp [maxAgeScan])
  | cons p rest ih =>
    intro n h
    simp only [maxAgeScan] at h
    by_cases hpre : (str "max-age=").isPrefixOf (toLower (trimSpace p))
    · rw [if_pos hpre] at h
      cases ha : goAtoi (trimSpace ((trimSpace p).drop 8)) with
      | none => rw [ha] at h; exact ih n h
      | some secs =>
        rw [ha] at h
        have h' : (if 0 < secs then some (wrap64 (secs * 1000000000))
            else maxAgeScan rest) = some n := h
        by_cases hs : 0 < secs
        · rw [if_pos hs] at h'
          cases h'
          exact ⟨secs, hs, (goAtoi_range _ _ ha).2, rfl⟩
        · rw [if_neg hs] at h'
          exact ih n h'
    · rw [if_neg hpre] at h
      exact ih n h

theorem parseMaxAge_shape (h : Headers) (n : Int) (hp : parseMaxAge h = some n) :
    ∃ z : Int, 0 < z ∧ z ≤ int64Max ∧ n = wrap64 (z * 1000000000) := by
  unfold parseMaxAge at hp
  by_cases hcc : hGet h "Cache-Control" = ""
  · rw [if_pos hcc] at hp; cases hp
  · rw [if_neg hcc] at hp
    exact maxAgeScan_shape _ n hp

/-- At a reachable input the Go duration arithmetic wraps: the
"cache forever" idiom max-age=9999999999 multiplies past int64Max, so
the stored TTL is negative and the entry is expired on arrival. -/
theorem parseMaxAge_wraps_negative :
    parseMaxAge [("Cache-Control", "max-age=9999999999")]
      = some (wrap64 (9999999999 * 1000000000))
    ∧ wrap64 (9999999999 * 1000000000) < 0 := by
  constructor
  · decide
  · decide

/-- The exact condition under which the passthrough handler stores a
cache entry, given a cache miss. -/
theorem stored_eq (cache : MemoryCache) (now ch : Nat) (resp : UpResponse) (r : PRequest)
    (hf : (cache.Get now (cacheKey r)).2 = false) :
    (handlePassthrough cache now ch (UpstreamResult.ok resp) r).stored
      = if r.method = "GET"
          ∧ (contentEncodingOf resp.headers = "" ∨ contentEncodingOf resp.headers = "identity")
          ∧ resp.status = 200 ∧ resp.rawErr = none then
          match parseMaxAge resp.headers with
          | some ttl => some (cacheKey r,
              Entry.mk resp.status (copyIf [] resp.headers cacheHeadersDefault)
                resp.rawBytes (now + ttl))
          | none => none
        else none := by
  by_cases hO : r.method = "OPTIONS"
  · have hs : (handlePassthrough cache now ch (UpstreamResult.ok resp) r).stored = none := by
      simp [handlePassthrough, hO]
    rw [hs, if_neg (fun hc => by rw [hO] at hc; exact absurd hc.1 (by decide))]
  · by_cases h45 : (r.method ≠ "GET" ∧ r.method ≠ "HEAD")
    · have hs : (handlePassthrough cache now ch (UpstreamResult.ok resp) r).stored = none := by
        simp [handlePassthrough, hO, h45]
      rw [hs, if_neg (fun hc => absurd hc.1 h45.1)]
    · cases hg : cache.Get now (cacheKey r) with
      | mk ent fnd =>
        rw [hg] at hf
        simp only at hf
        subst hf
        simp only [handlePassthrough, if_neg hO, if_neg h45, hg]
        by_cases hcond : r.method = "GET"
          ∧ (contentEncodingOf resp.headers = "" ∨ contentEncodingOf resp.headers = "identity")
          ∧ resp.status = 200
        · rw [if_pos hcond]
          cases hre : resp.rawErr with
          | none =>
            rw [if_pos ⟨hcond.1, hcond.2.1, hcond.2.2, rfl⟩]
            cases hma : parseMaxAge resp.headers with
            | some ttl => simp only
            | none => simp only
          | some e =>
            rw [if_neg (fun hc => Option.noConfusion hc.2.2.2)]
        · rw [if_neg hcond]
          conv_rhs => rw [if_neg (fun hc => hcond ⟨hc.1, hc.2.1, hc.2.2.1⟩)]

/-- Counterexample for C2: a GET with a 200, uncompressed, max-age=60
upstream response whose body read fails stores nothing, so the four
stated conditions do not suffice ("if and only if" fails). -/
theorem claim_C2_cex :
    sampleGet.method = "GET"
    ∧ contentEncodingOf respReadFail.headers = ""
    ∧ respReadFail.status = 200
    ∧ parseMaxAge respReadFail.headers = some (60 * 1000000000)
    ∧ (handlePassthrough (NewMemoryCache 512) 0 0 (UpstreamResult.ok respReadFail)
        sampleGet).stored = none := by
  refine ⟨rfl, ?_, rfl, ?_, ?_⟩ <;> decide

theorem maxAgeScan_isSome_iff : ∀ l : List Bytes,
    (maxAgeScan l).isSome = true
      ↔ ∃ p ∈ l, ((str "max-age=").isPrefixOf (toLower (trimSpace p)) = true)
          ∧ ∃ z : Int, goAtoi (trimSpace ((trimSpace p).drop 8)) = some z ∧ 0 < z := by
  intro l
  induction l with
  | nil => simp [maxAgeScan]
  | cons p rest ih =>
    constructor
    · intro hs
      simp only [maxAgeScan] at hs
      by_cases hpre : (str "max-age=").isPrefixOf (toLower (trimSpace p)) = true
      · rw [if_pos hpre] at hs
        cases ha : goAtoi (trimSpace ((trimSpace p).drop 8)) with
        | none =>
          rw [ha] at hs
          have hs' : (maxAgeScan rest).isSome = true := hs
          obtain ⟨q, hq, h1, h2⟩ := ih.1 hs'
          exact ⟨q, List.mem_cons_of_mem p hq, h1, h2⟩
        | some secs =>
          rw [ha] at hs
          have hs' : (if 0 < secs then some (wrap64 (secs * 1000000000))
              else maxAgeScan rest).isSome = true := hs
          by_cases hz : 0 < secs
          · exact ⟨p, List.mem_cons_self p rest, hpre, secs, ha, hz⟩
          · rw [if_neg hz] at hs'
            obtain ⟨q, hq, h1, h2⟩ := ih.1 hs'
            exact ⟨q, List.mem_cons_of_mem p hq, h1, h2⟩
      · rw [if_neg hpre] at hs
        obtain ⟨q, hq, h1, h2⟩ := ih.1 hs
        exact ⟨q, List.mem_cons_of_mem p hq, h1, h2⟩
    · rintro ⟨q, hq, h1, z, hz, hz0⟩
      simp only [maxAgeScan]
      rcases List.mem_cons.1 hq with rfl | hq
      · rw [if_pos h1, hz]
        have hred : (if 0 < z then some (wrap64 (z * 1000000000))
            else maxAgeScan rest).isSome = true := by
          rw [if_pos hz0]; rfl
        exact hred
      · have hrest : (maxAgeScan rest).isSome = true := ih.2 ⟨q, hq, h1, z, hz, hz0⟩
        by_cases hpre : (str "max-age=").isPrefixOf (toLower (trimSpace p)) = true
        · rw [if_pos hpre]
          cases ha : goAtoi (trimSpace ((trimSpace p).drop 8)) with
          | none => exact hrest
          | some secs =>
            by_cases hzs : 0 < secs
            · have hred : (if 0 < secs then some (wrap64 (secs * 1000000000))
                  else maxAgeScan rest).isSome = true := by
                rw [if_pos hzs]; rfl
              exact hred
            · have hred : (if 0 < secs then some (wrap64 (secs * 1000000000))
                  else maxAgeScan rest).isSome = true := by
                rw [if_neg hzs]; exact hrest
              exact hred
        · rw [if_neg hpre]
          exact hrest

theorem parseMaxAge_isSome_iff (hh : Headers) :
    (parseMaxAge hh).isSome = true
      ↔ ∃ p ∈ splitComma (hGet hh "Cache-Control").data,
          ((str "max-age=").isPrefixOf (toLower (trimSpace p)) = true)
          ∧ ∃ z : Int, goAtoi (trimSpace ((trimSpace p).drop 8)) = some z ∧ 0 < z := by
  unfold parseMaxAge
  by_cases hcc : hGet hh "Cache-Control" = ""
  · rw [if_pos hcc, hcc]
    constructor
    · intro hfoo; exact absurd hfoo (by simp)
    · rintro ⟨p, hp, hpre, _⟩
      have hp' : p = [] := by
        have : splitComma ("" : String).data = [[]] := rfl
        rw [this] at hp
        exact List.mem_singleton.1 hp
      rw [hp'] at hpre
      exact absurd hpre (by decide)
  · rw [if_neg hcc]
    exact maxAgeScan_isSome_iff _

/-- Claim C2 (amended): given a cache miss, the passthrough handler
stores an entry if and only if the method is GET, the upstream response
is uncompressed (absent or identity Content-Encoding), its status is
exactly 200, the body read succeeds, and `parseMaxAge` extracts a TTL
from Cache-Control; the entry is stored under the cache key of the
request with expiry now + TTL (and never for HEAD, non-200 or
compressed responses; a failed body read also prevents storing, which
the original claim omitted).  The TTL is not always "N seconds": it is
the int64 duration wrap64(N * 10^9) for a positive in-range directive
value N (third conjunct), which wraps for N ≥ 9223372037 — possibly
negative, storing an already expired entry (see
`parseMaxAge_wraps_negative`).  The last conjunct shows `parseMaxAge`
succeeding is exactly the claim's condition: some comma-separated
Cache-Control directive is max-age=N with N > 0 within the range of
`strconv.Atoi` (a directive beyond int64 is a range error and is
skipped). -/
theorem claim_C2 (cache : MemoryCache) (now ch : Nat) (resp : UpResponse) (r : PRequest)
    (hf : (cache.Get now (cacheKey r)).2 = false) :
    (∀ k e, (handlePassthrough cache now ch (UpstreamResult.ok resp) r).stored = some (k, e) →
      r.method = "GET"
      ∧ (contentEncodingOf resp.headers = "" ∨ contentEncodingOf resp.headers = "identity")
      ∧ resp.status = 200 ∧ resp.rawErr = none
      ∧ ∃ n, parseMaxAge resp.headers = some n
          ∧ k = cacheKey r ∧ e.expires = now + n
          ∧ e.body = resp.rawBytes ∧ e.status = resp.status)
    ∧ (∀ n, r.method = "GET" →
        (contentEncodingOf resp.headers = "" ∨ contentEncodingOf resp.headers = "identity") →
        resp.status = 200 → resp.rawErr = none → parseMaxAge resp.headers = some n →
        (handlePassthrough cache now ch (UpstreamResult.ok resp) r).stored
          = some (cacheKey r,
              Entry.mk resp.status (copyIf [] resp.headers cacheHeadersDefault)
                resp.rawBytes (now + n)))
    ∧ (∀ n, parseMaxAge resp.headers = some n →
        ∃ z : Int, 0 < z ∧ z ≤ int64Max ∧ n = wrap64 (z * 1000000000))
    ∧ ((parseMaxAge resp.headers).isSome = true
        ↔ ∃ p ∈ splitComma (hGet resp.headers "Cache-Control").data,
            ((str "max-age=").isPrefixOf (toLower (trimSpace p)) = true)
            ∧ ∃ z : Int, goAtoi (trimSpace ((trimSpace p).drop 8)) = some z ∧ 0 < z) := by
  refine ⟨?_, ?_, parseMaxAge_shape resp.headers, parseMaxAge_isSome_iff resp.headers⟩
  · intro k e hs
    rw [stored_eq cache now ch resp r hf] at hs
    by_cases hcond : r.method = "GET"
      ∧ (contentEncodingOf resp.headers = "" ∨ contentEncodingOf resp.headers = "identity")
      ∧ resp.status = 200 ∧ resp.rawErr = none
    · rw [if_pos hcond] at hs
      cases hma : parseMaxAge resp.headers with
      | none => rw [hma] at hs; cases hs
      | some ttl =>
        rw [hma] at hs
        simp only [Option.some.injEq, Prod.mk.injEq] at hs
        obtain ⟨hk, he⟩ := hs
        refine ⟨hcond.1, hcond.2.1, hcond.2.2.1, hcond.2.2.2,
          ttl, rfl, hk.symm, ?_, ?_, ?_⟩ <;> rw [← he]
    · rw [if_neg hcond] at hs; cases hs
  · intro n hm henc hst hre hma
    rw [stored_eq cache now ch resp r hf, if_pos ⟨hm, henc, hst, hre⟩, hma, hst]

/-- Witness for C2 (amended): a concrete max-age=60 response is stored
with expiry now + 60 seconds in nanoseconds (60 * 10^9 is within int64,
so the wrap is the identity here). -/
theorem claim_C2_witness :
    ((NewMemoryCache 512).Get 7 (cacheKey sampleGet)).2 = false
    ∧ (handlePassthrough (NewMemoryCache 512) 7 0 (UpstreamResult.ok respOkPlain)
        sampleGet).stored
      = some (cacheKey sampleGet,
          Entry.mk respOkPlain.status (copyIf [] respOkPlain.headers cacheHeadersDefault)
            respOkPlain.rawBytes (7 + 60 * 1000000000)) :=
  ⟨by decide,
    (claim_C2 (NewMemoryCache 512) 7 0 respOkPlain sampleGet (by decide)).2.1
      (60 * 1000000000) rfl (Or.inl (by decide)) rfl rfl (by decide)⟩

/- ------------------------------------------------------------------ -/
/- Claim C10.                                                          -/
/- ------------------------------------------------------------------ -/

theorem evictOne_subset (l : List (String × Entry)) (ch : Nat) (q : String × Entry)
    (hq : q ∈ evictOne l ch) : q ∈ l := by
  cases l with
  | nil => exact absurd hq (List.not_mem_nil q)
  | cons a t => exact List.mem_of_mem_eraseIdx hq

theorem keysAllGET_Set (c : MemoryCache) (ch : Nat) (k : String) (e : Entry)
    (hall : keysAllGET c) (hk : (str "GET ").isPrefixOf k.data) :
    keysAllGET (c.Set ch k e) := by
  intro p hp
  have hd : ∀ q ∈ (if c.maxEntries ≤ c.data.length then evictOne c.data ch else c.data),
      (str "GET ").isPrefixOf q.1.data := by
    intro q hq
    by_cases hle : c.maxEntries ≤ c.data.length
    · rw [if_pos hle] at hq
      exact hall q (evictOne_subset _ _ _ hq)
    · rw [if_neg hle] at hq
      exact hall q hq
  have hp' : p ∈ setAssoc
      (if c.maxEntries ≤ c.data.length then evictOne c.data ch else c.data) k e := hp
  unfold setAssoc at hp'
  by_cases hf : ((if c.maxEntries ≤ c.data.length then evictOne c.data ch
      else c.data).find? (fun q => q.1 == k)).isSome
  · rw [if_pos hf] at hp'
    obtain ⟨q, hq, heq⟩ := List.mem_map.1 hp'
    by_cases hqk : (q.1 == k) = true
    · rw [if_pos hqk] at heq
      rw [← heq]
      exact hk
    · rw [if_neg hqk] at heq
      rw [← heq]
      exact hd q hq
  · rw [if_neg hf] at hp'
    rcases List.mem_append.1 hp' with h | h
    · exact hd p h
    · rw [List.mem_singleton.1 h]
      exact hk

theorem cacheKey_starts_GET (r : PRequest) (hm : r.method = "GET") :
    (str "GET ").isPrefixOf (cacheKey r).data = true := by
  rw [List.isPrefixOf_iff_prefix]
  refine ⟨((requestURI r).data ++ str " ae=") ++ trimSpace r.acceptEncoding.data, ?_⟩
  unfold cacheKey
  rw [hm]
  rfl

theorem cacheKey_HEAD_data (r : PRequest) (hm : r.method = "HEAD") :
    (cacheKey r).data
      = 'H' :: (str "EAD "
          ++ (((requestURI r).data ++ str " ae=") ++ trimSpace r.acceptEncoding.data)) := by
  unfold cacheKey
  rw [hm]
  rfl

theorem cacheAfter_keys (cache : MemoryCache) (now ch : Nat) (up : UpstreamResult)
    (r : PRequest) (hall : keysAllGET cache) :
    keysAllGET (handlePassthrough cache now ch up r).cacheAfter := by
  by_cases hO : r.method = "OPTIONS"
  · simp only [handlePassthrough, if_pos hO]
    exact hall
  · by_cases h45 : (r.method ≠ "GET" ∧ r.method ≠ "HEAD")
    · simp only [handlePassthrough, if_neg hO, if_pos h45]
      exact hall
    · cases hg : cache.Get now (cacheKey r) with
      | mk ent fnd =>
        cases fnd with
        | true =>
          simp only [handlePassthrough, if_neg hO, if_neg h45, hg]
          exact hall
        | false =>
          cases up with
          | transportError e =>
            simp only [handlePassthrough, if_neg hO, if_neg h45, hg]
            exact hall
          | ok resp =>
            simp only [handlePassthrough, if_neg hO, if_neg h45, hg]
            by_cases hcond : r.method = "GET"
              ∧ (contentEncodingOf resp.headers = ""
                  ∨ contentEncodingOf resp.headers = "identity")
              ∧ resp.status = 200
            · rw [if_pos hcond]
              cases hre : resp.rawErr with
              | none =>
                cases hma : parseMaxAge resp.headers with
                | some ttl =>
                  simp only
                  exact keysAllGET_Set cache ch (cacheKey r) _ hall
                    (cacheKey_starts_GET r hcond.1)
                | none => exact hall
              | some e => exact hall
            · rw [if_neg hcond]
              exact hall

theorem runPassthrough_keys :
    ∀ (steps : List PStep) (c : MemoryCache), keysAllGET c →
      keysAllGET (runPassthrough c steps) := by
  intro steps
  induction steps with
  | nil => intro c h; exact h
  | cons s rest ih =>
    intro c h
    exact ih _ (cacheAfter_keys c s.now s.evictChoice s.up s.req h)

theorem head_get_miss (cache : MemoryCache) (now : Nat) (r : PRequest)
    (hall : keysAllGET cache) (hm : r.method = "HEAD") :
    (cache.Get now (cacheKey r)).2 = false := by
  cases hf : cache.data.find? (fun p => p.1 == cacheKey r) with
  | none =>
    have hl : lookupKey cache.data (cacheKey r) = none := by
      unfold lookupKey
      rw [hf]
      rfl
    simp [MemoryCache.Get, hl]
  | some p =>
    exfalso
    have hb := List.find?_some hf
    have hpk : p.1 = cacheKey r := eq_of_beq hb
    have hpre := hall p (List.mem_of_find?_eq_some hf)
    rw [hpk] at hpre
    have hfalse : (str "GET ").isPrefixOf (cacheKey r).data = false := by
      rw [cacheKey_HEAD_data r hm]
      rfl
    rw [hfalse] at hpre
    cases hpre

theorem cacheState_ne_hit (cache : MemoryCache) (now ch : Nat) (up : UpstreamResult)
    (r : PRequest) (hf : (cache.Get now (cacheKey r)).2 = false) :
    (handlePassthrough cache now ch up r).cacheState ≠ "HIT" := by
  by_cases hO : r.method = "OPTIONS"
  · simp only [handlePassthrough, if_pos hO]
    decide
  · by_cases h45 : (r.method ≠ "GET" ∧ r.method ≠ "HEAD")
    · simp only [handlePassthrough, if_neg hO, if_pos h45]
      decide
    · cases hg : cache.Get now (cacheKey r) with
      | mk ent fnd =>
        rw [hg] at hf
        simp only at hf
        subst hf
        cases up with
        | transportError e =>
          simp only [handlePassthrough, if_neg hO, if_neg h45, hg]
          decide
        | ok resp =>
          simp only [handlePassthrough, if_neg hO, if_neg h45, hg]
          by_cases hcond : r.method = "GET"
            ∧ (contentEncodingOf resp.headers = ""
                ∨ contentEncodingOf resp.headers = "identity")
            ∧ resp.status = 200
          · rw [if_pos hcond]
            cases hre : resp.rawErr with
            | none =>
              cases hma : parseMaxAge resp.headers with
              | some ttl => simp only; decide
              | none => simp only; decide
            | some e => simp only; decide
          · rw [if_neg hcond]
            exact (show ("BYPASS" : String) ≠ "HIT" by decide)

/-- Claim C10: starting from the empty cache, the passthrough handler
only ever stores entries under keys whose method component is GET (first
conjunct), and since the cache key embeds the request method, a HEAD
request can never produce a cache hit: its logged cache state is never
"HIT" (second conjunct). -/
theorem claim_C10 (n : Nat) (steps : List PStep) (r : PRequest) (up : UpstreamResult)
    (now ch : Nat) (hm : r.method = "HEAD") :
    keysAllGET (runPassthrough (NewMemoryCache n) steps)
    ∧ (handlePassthrough (runPassthrough (NewMemoryCache n) steps) now ch up r).cacheState
        ≠ "HIT" := by
  have hall : keysAllGET (runPassthrough (NewMemoryCache n) steps) :=
    runPassthrough_keys steps (NewMemoryCache n) (by intro p hp; cases hp)
  exact ⟨hall, cacheState_ne_hit _ now ch up r
    (head_get_miss _ now r hall hm)⟩

/-- Witness for C10: after a GET stores an entry for /a.js, a HEAD for
the same resource still misses. -/
theorem claim_C10_witness :
    sampleHead.method = "HEAD"
    ∧ (handlePassthrough
        (runPassthrough (NewMemoryCache 512)
          [PStep.mk sampleGet (UpstreamResult.ok respOkPlain) 0 0])
        5 0 (UpstreamResult.ok respOkPlain) sampleHead).cacheState ≠ "HIT" :=
  ⟨rfl, (claim_C10 512 [PStep.mk sampleGet (UpstreamResult.ok respOkPlain) 0 0]
    sampleHead (UpstreamResult.ok respOkPlain) 5 0 rfl).2⟩

end GiscusProxy
